import Mathlib

/-!
Verification of the "Module State Registry" mechanism described by the
repository's buffer tutorial (src/ch03/03_understanding-buffers). The
notebook's own code defines two causal-attention modules (with and without
a registered mask buffer); the registry operations themselves
(register_buffer, .to/transfer_state, state_dict/export_state,
load_state_dict/import_state) are framework primitives that the notebook
demonstrates, so they are modelled from the specification's description
and the notebook's observed behaviour.

Tensors are modelled as rational matrices with a storage location and a
gradient-tracking flag; transcendental parts of the attention computation
(exp inside softmax, the square root of the key dimension) are abstracted
as parameters of the forward function.
-/

namespace PTB

/-- Storage location of a tensor (e.g. CPU or a GPU device). -/
inductive Location where
  | cpu
  | cuda
deriving DecidableEq, Repr

/-- A tensor: a (2-dimensional) rational value together with its storage
location and its gradient-tracking flag. -/
structure Tensor where
  value : List (List ℚ)
  location : Location
  requiresGrad : Bool
deriving DecidableEq, Repr

/-- Shape of a tensor: number of entries in each row (all state tensors in
the notebook are 2-dimensional). -/
def Tensor.shape (t : Tensor) : List Nat :=
  t.value.map List.length

/-- Two tensors agree in shape (the dtype is uniformly rational here). -/
def Tensor.sameShape (a b : Tensor) : Bool :=
  a.shape == b.shape

/-- Modelled from the spec: a Module owns named Parameters (trainable),
named Buffers (non-trainable, each with a persistence flag), plain
unregistered tensor attributes, and named child modules (strictly
hierarchical ownership). -/
inductive Module where
  | mk (params : List (String × Tensor))
       (buffers : List (String × Tensor × Bool))
       (plain : List (String × Tensor))
       (children : List (String × Module))

def Module.params : Module → List (String × Tensor)
  | .mk ps _ _ _ => ps

def Module.buffers : Module → List (String × Tensor × Bool)
  | .mk _ bs _ _ => bs

def Module.plain : Module → List (String × Tensor)
  | .mk _ _ pl _ => pl

def Module.children : Module → List (String × Module)
  | .mk _ _ _ cs => cs

/-- Names already bound in a module's local namespace (parameters, buffers
and child modules share one namespace). -/
def Module.boundNames (m : Module) : List String :=
  m.params.map Prod.fst ++ m.buffers.map Prod.fst ++ m.children.map Prod.fst

/-- Error taxonomy of the registry (spec section 7). -/
inductive RegErr where
  | nameCollision (name : String)
  | shapeMismatch (key : String)
  | keyMismatch (missing unexpected : List String)
deriving DecidableEq, Repr

/-- Modelled from the spec: `register_buffer(name, value, persistent)`
attaches a non-trainable tensor under `name`; fails with `NameCollision`
if the name is already bound; the value's gradient-tracking flag is
forced off on assignment. -/
def Module.registerBuffer (m : Module) (name : String) (v : Tensor)
    (persistent : Bool) : Except RegErr Module :=
  if name ∈ m.boundNames then
    .error (.nameCollision name)
  else
    .ok (.mk m.params (m.buffers ++ [(name, { v with requiresGrad := false }, persistent)])
      m.plain m.children)

/-- Modelled from the spec: `register_parameter(name, value)` attaches a
trainable tensor under `name`; gradient-tracking flag forced on; same
collision rule as for buffers. -/
def Module.registerParameter (m : Module) (name : String) (v : Tensor) :
    Except RegErr Module :=
  if name ∈ m.boundNames then
    .error (.nameCollision name)
  else
    .ok (.mk (m.params ++ [(name, { v with requiresGrad := true })]) m.buffers
      m.plain m.children)

/-- Relocating a tensor replaces its storage location. -/
def Tensor.relocate (t : Tensor) (L : Location) : Tensor :=
  { t with location := L }

/-- Modelled from the spec: `transfer_state(L)` recursively relocates every
Parameter and every Buffer (persistent or not) of the module and all its
descendants; plain attributes are untouched. -/
def Module.transferState (L : Location) : Module → Module
  | .mk ps bs pl cs =>
    .mk (ps.map fun p => (p.1, p.2.relocate L))
        (bs.map fun b => (b.1, b.2.1.relocate L, b.2.2))
        pl
        (cs.attach.map fun c => (c.1.1, c.1.2.transferState L))
decreasing_by
  have h1 := List.sizeOf_lt_of_mem c.2
  have h2 : sizeOf c.1.2 < sizeOf c.1 := by
    obtain ⟨⟨a, b⟩, hc⟩ := c
    simp
  simp only [Module.mk.sizeOf_spec]
  omega

/-- Modelled from the spec: `export_state()` lists the module's own
Parameters (declaration order), then its persistence-flagged Buffers, then
each child's entries under the dotted prefix `childname.` — a stable
traversal with parents before children. -/
def Module.exportState : Module → List (String × Tensor)
  | .mk ps bs _ cs =>
    ps
      ++ bs.filterMap (fun b => if b.2.2 then some (b.1, b.2.1) else none)
      ++ (cs.attach.map fun c =>
            c.1.2.exportState.map fun e => (c.1.1 ++ "." ++ e.1, e.2)).flatten
decreasing_by
  have h1 := List.sizeOf_lt_of_mem c.2
  have h2 : sizeOf c.1.2 < sizeOf c.1 := by
    obtain ⟨⟨a, b⟩, hc⟩ := c
    simp
  simp only [Module.mk.sizeOf_spec]
  omega

/-- Keys that the module exports (and that a strict import expects). -/
def Module.exportableKeys (m : Module) : List String :=
  m.exportState.map Prod.fst

/-- Look up a key in a name-to-tensor mapping (first match). -/
def lookupKey (mp : List (String × Tensor)) (k : String) : Option Tensor :=
  (mp.find? fun e => e.1 == k).map Prod.snd

/-- Overwrite a target tensor's value in place: the new value is taken from
the source, while the target keeps its own location and gradient flag. -/
def Tensor.loadFrom (dst src : Tensor) : Tensor :=
  { dst with value := src.value }

/-- Value overwriting for one slot: if the mapping holds the slot's dotted
key and the shapes agree, the stored value is replaced; otherwise the slot
is untouched. -/
def updateTensor (mp : List (String × Tensor)) (k : String) (t : Tensor) : Tensor :=
  match lookupKey mp k with
  | none => t
  | some src => if t.sameShape src then t.loadFrom src else t

/-- Modelled from the spec: the in-place overwriting pass of
`import_state`. Walks the tree; `pre` is the dotted prefix of the current
module. Parameters and persistent buffers whose dotted key occurs in the
mapping (with matching shape) receive the mapped value; everything else is
untouched. -/
def Module.applyImport (mp : List (String × Tensor)) (pre : String) :
    Module → Module
  | .mk ps bs pl cs =>
    .mk (ps.map fun p => (p.1, updateTensor mp (pre ++ p.1) p.2))
        (bs.map fun b =>
          if b.2.2 then (b.1, updateTensor mp (pre ++ b.1) b.2.1, b.2.2) else b)
        pl
        (cs.attach.map fun c =>
          (c.1.1, c.1.2.applyImport mp (pre ++ c.1.1 ++ ".")))
decreasing_by
  have h1 := List.sizeOf_lt_of_mem c.2
  have h2 : sizeOf c.1.2 < sizeOf c.1 := by
    obtain ⟨⟨a, b⟩, hc⟩ := c
    simp
  simp only [Module.mk.sizeOf_spec]
  omega

/-- First key of the expected entries whose mapped value has a different
shape, if any (`ShapeMismatch` detection of `import_state`). -/
def firstShapeErr (expected mp : List (String × Tensor)) : Option String :=
  (expected.find? fun e =>
    match lookupKey mp e.1 with
    | none => false
    | some src => ¬ e.2.sameShape src).map Prod.fst

/-- Modelled from the spec: `import_state(mapping, strict)`. In strict mode
it fails with `KeyMismatch` (listing missing and unexpected keys) when the
mapping's key set differs from the exportable key set; a shape mismatch is
a `ShapeMismatch` error in either mode; otherwise the values are
overwritten in place and the missing/unexpected key sets are returned to
the caller as diagnostics. -/
def Module.importState (m : Module) (mp : List (String × Tensor))
    (strict : Bool) : Except RegErr (Module × List String × List String) :=
  let expected := m.exportState
  let expectedKeys := expected.map Prod.fst
  let mapKeys := mp.map Prod.fst
  let missing := expectedKeys.filter fun k => ¬ mapKeys.contains k
  let unexpected := mapKeys.filter fun k => ¬ expectedKeys.contains k
  if strict ∧ (missing ≠ [] ∨ unexpected ≠ []) then
    .error (.keyMismatch missing unexpected)
  else
    match firstShapeErr expected mp with
    | some k => .error (.shapeMismatch k)
    | none => .ok (m.applyImport mp "", missing, unexpected)

/-- All Parameter and Buffer tensors of a module and its descendants — the
registered state that a relocation must reach. -/
def Module.stateTensors : Module → List Tensor
  | .mk ps bs _ cs =>
    ps.map Prod.snd ++ bs.map (fun b => b.2.1)
      ++ (cs.attach.map fun c => c.1.2.stateTensors).flatten
decreasing_by
  have h1 := List.sizeOf_lt_of_mem c.2
  have h2 : sizeOf c.1.2 < sizeOf c.1 := by
    obtain ⟨⟨a, b⟩, hc⟩ := c
    simp
  simp only [Module.mk.sizeOf_spec]
  omega

/-- The Parameter tensors of a module and its descendants — the set an
optimizer enumerates; Buffers never occur in it. -/
def Module.parametersList : Module → List Tensor
  | .mk ps _ _ cs =>
    ps.map Prod.snd ++ (cs.attach.map fun c => c.1.2.parametersList).flatten
decreasing_by
  have h1 := List.sizeOf_lt_of_mem c.2
  have h2 : sizeOf c.1.2 < sizeOf c.1 := by
    obtain ⟨⟨a, b⟩, hc⟩ := c
    simp
  simp only [Module.mk.sizeOf_spec]
  omega

/-- All Buffer tensors of a module and its descendants carry a cleared
gradient-tracking flag. -/
def Module.buffersNonGrad : Module → Prop
  | .mk _ bs _ cs =>
    (∀ b ∈ bs, b.2.1.requiresGrad = false)
      ∧ ∀ c ∈ cs.attach, c.1.2.buffersNonGrad
decreasing_by
  have h1 := List.sizeOf_lt_of_mem c.2
  have h2 : sizeOf c.1.2 < sizeOf c.1 := by
    obtain ⟨⟨a, b⟩, hc⟩ := c
    simp
  simp only [Module.mk.sizeOf_spec]
  omega

/-- Mask initial value from the source: `torch.triu(torch.ones(n, n),
diagonal=1)` — ones strictly above the diagonal, zeros elsewhere. -/
def triuOnes (n : Nat) : List (List ℚ) :=
  (List.range n).map fun i => (List.range n).map fun j => if i < j then 1 else 0

/-- Child module for `nn.Linear(d_in, d_out, bias=False)`: a module with
the single parameter `weight` (shape d_out × d_in). -/
def linearModule (w : List (List ℚ)) : Module :=
  .mk [("weight", { value := w, location := .cpu, requiresGrad := true })] [] [] []

/-- Child module for `nn.Dropout(p)`: stateless. -/
def dropoutModule : Module :=
  .mk [] [] [] []

/-- Constructor of `CausalAttentionWithBuffer` from the source: creates the
three linear children and the dropout child, then registers the mask as a
buffer via `register_buffer`. -/
def CausalAttentionWithBuffer.init (ctxLen : Nat) (wq wk wv : List (List ℚ)) :
    Except RegErr Module :=
  Module.registerBuffer
    (.mk [] [] []
      [("W_query", linearModule wq), ("W_key", linearModule wk),
       ("W_value", linearModule wv), ("dropout", dropoutModule)])
    "mask" { value := triuOnes ctxLen, location := .cpu, requiresGrad := false } true

/-- The module that `CausalAttentionWithBuffer.init` builds (registration
succeeds since `mask` collides with no existing name). -/
def CausalAttentionWithBuffer.make (ctxLen : Nat) (wq wk wv : List (List ℚ)) :
    Module :=
  .mk []
    [("mask", { value := triuOnes ctxLen, location := .cpu, requiresGrad := false }, true)]
    []
    [("W_query", linearModule wq), ("W_key", linearModule wk),
     ("W_value", linearModule wv), ("dropout", dropoutModule)]

/-- Constructor of `CausalAttentionWithoutBuffers` from the source: same
children, but the mask is a plain (unregistered) tensor attribute. -/
def CausalAttentionWithoutBuffers.make (ctxLen : Nat) (wq wk wv : List (List ℚ)) :
    Module :=
  .mk [] []
    [("mask", { value := triuOnes ctxLen, location := .cpu, requiresGrad := false })]
    [("W_query", linearModule wq), ("W_key", linearModule wk),
     ("W_value", linearModule wv), ("dropout", dropoutModule)]

/-- Attribute resolution of a registered buffer (`self.mask` through the
buffer registry). -/
def Module.getBuffer (m : Module) (n : String) : Option Tensor :=
  (m.buffers.find? fun b => b.1 == n).map fun b => b.2.1

/-- Attribute resolution of a plain tensor attribute. -/
def Module.getPlain (m : Module) (n : String) : Option Tensor :=
  (m.plain.find? fun p => p.1 == n).map Prod.snd

/-- Attribute resolution of a parameter. -/
def Module.getParam (m : Module) (n : String) : Option Tensor :=
  (m.params.find? fun p => p.1 == n).map Prod.snd

/-- Attribute resolution of a child module. -/
def Module.getChild (m : Module) (n : String) : Option Module :=
  (m.children.find? fun c => c.1 == n).map Prod.snd

/-- Value of a registered buffer (empty matrix when absent). -/
def Module.bufferValue (m : Module) (n : String) : List (List ℚ) :=
  ((m.getBuffer n).map Tensor.value).getD []

/-- Value of a plain tensor attribute (empty matrix when absent). -/
def Module.plainValue (m : Module) (n : String) : List (List ℚ) :=
  ((m.getPlain n).map Tensor.value).getD []

/-- Weight matrix of a linear child (`self.W_query.weight` etc.). -/
def Module.childWeight (m : Module) (n : String) : List (List ℚ) :=
  (((m.getChild n).bind fun c => c.getParam "weight").map Tensor.value).getD []

/-- Boolean-mask assignment from the source (`t[t == old] = new`): every
entry equal to `old` becomes `new`. -/
def maskedAssign (old new : ℚ) (v : List (List ℚ)) : List (List ℚ) :=
  v.map fun r => r.map fun a => if a = old then new else a

/-- In-place mutation of a top-level registered buffer's value. -/
def Module.mutateBuffer (m : Module) (n : String)
    (f : List (List ℚ) → List (List ℚ)) : Module :=
  .mk m.params
    (m.buffers.map fun b =>
      if b.1 == n then (b.1, { b.2.1 with value := f b.2.1.value }, b.2.2) else b)
    m.plain m.children

/-- Dot product of two rows. -/
def dot (a b : List ℚ) : ℚ :=
  (List.zipWith (fun x y => x * y) a b).sum

/-- Product with a transposed right factor: `(A @ B.T)[i][j] = A_i · B_j`.
Used for `x @ W.T` inside `nn.Linear` and for
`queries @ keys.transpose(1, 2)`. -/
def matmulT (A B : List (List ℚ)) : List (List ℚ) :=
  A.map fun r => B.map (dot r)

/-- Scale a row by a coefficient. -/
def vecScale (c : ℚ) (v : List ℚ) : List ℚ :=
  v.map fun a => c * a

/-- Entrywise sum of two rows. -/
def vecAdd (a b : List ℚ) : List ℚ :=
  List.zipWith (fun x y => x + y) a b

/-- Row–matrix product written as the linear combination of the rows of
`B` with the entries of `r` as coefficients (`width` is the row width of
`B`). -/
def rowCombo (r : List ℚ) (B : List (List ℚ)) (width : Nat) : List ℚ :=
  (List.zipWith vecScale r B).foldr vecAdd (List.replicate width 0)

/-- Plain matrix product `A @ B` (used for `attn_weights @ values`). -/
def matmul (A B : List (List ℚ)) : List (List ℚ) :=
  A.map fun r => rowCombo r B ((B.headI).length)

/-- One row of `torch.softmax` applied to scores that were masked with
`-inf` (`masked_fill_`): a masked position (nonzero mask entry)
contributes weight 0, an unmasked position contributes
`exp(s/√d)` normalised over the row. `expF` and `sqrtD` abstract the
transcendental exponential and `keys.shape[-1]**0.5`. -/
def softmaxMaskedRow (expF : ℚ → ℚ) (sqrtD : ℚ) (maskRow scores : List ℚ) :
    List ℚ :=
  let e := List.zipWith
    (fun mj sj => if mj ≠ 0 then 0 else expF (sj / sqrtD)) maskRow scores
  e.map fun a => a / e.sum

/-- `nn.Dropout(p)`: with probability 0 nothing is dropped and the scale
`1/(1-p)` is 1, so the input passes through unchanged; with positive `p`
the positions rejected by the sampled `keep` mask are zeroed and the kept
ones are rescaled. -/
def dropoutMat (p : ℚ) (keep : Nat → Nat → Bool) (w : List (List ℚ)) :
    List (List ℚ) :=
  if p = 0 then w
  else w.enum.map fun ir =>
    ir.2.enum.map fun ja => if keep ir.1 ja.1 then ja.2 / (1 - p) else 0

/-- The forward computation on one batch element, transcribed from the
source (the bodies of `CausalAttentionWithoutBuffers.forward` and
`CausalAttentionWithBuffer.forward` are textually identical): linear maps
for queries/keys/values, scaled masked softmax over the attention scores,
dropout, and the final product with the values. -/
def causalForwardOne (expF : ℚ → ℚ) (sqrtD p : ℚ) (keep : Nat → Nat → Bool)
    (wq wk wv mask : List (List ℚ)) (x : List (List ℚ)) : List (List ℚ) :=
  let numTokens := x.length
  let keys := matmulT x wk
  let queries := matmulT x wq
  let values := matmulT x wv
  let attnScores := matmulT queries keys
  let maskCut := (mask.take numTokens).map fun r => r.take numTokens
  let attnWeights := List.zipWith (softmaxMaskedRow expF sqrtD) maskCut attnScores
  let attnWeightsDropped := dropoutMat p keep attnWeights
  matmul attnWeightsDropped values

/-- `CausalAttentionWithBuffer.forward` applied to a batch: the mask is
resolved through the buffer registry. -/
def CausalAttentionWithBuffer.forward (m : Module) (expF : ℚ → ℚ)
    (sqrtD p : ℚ) (keep : Nat → Nat → Bool)
    (batch : List (List (List ℚ))) : List (List (List ℚ)) :=
  batch.map (causalForwardOne expF sqrtD p keep (m.childWeight "W_query")
    (m.childWeight "W_key") (m.childWeight "W_value") (m.bufferValue "mask"))

/-- `CausalAttentionWithoutBuffers.forward` applied to a batch: the mask is
resolved as a plain attribute. -/
def CausalAttentionWithoutBuffers.forward (m : Module) (expF : ℚ → ℚ)
    (sqrtD p : ℚ) (keep : Nat → Nat → Bool)
    (batch : List (List (List ℚ))) : List (List (List ℚ)) :=
  batch.map (causalForwardOne expF sqrtD p keep (m.childWeight "W_query")
    (m.childWeight "W_key") (m.childWeight "W_value") (m.plainValue "mask"))

/-- Declarative description of what belongs in the serialized state: the
module's own Parameters, its persistence-flagged Buffers, and each
descendant's entries under the hierarchical dotted name. -/
inductive ExportEntry : Module → String → Tensor → Prop where
  | param {m : Module} {n : String} {t : Tensor} :
      (n, t) ∈ m.params → ExportEntry m n t
  | buffer {m : Module} {n : String} {t : Tensor} :
      (n, t, true) ∈ m.buffers → ExportEntry m n t
  | child {m : Module} {c : String} {mc : Module} {k : String} {t : Tensor} :
      (c, mc) ∈ m.children → ExportEntry mc k t →
      ExportEntry m (c ++ "." ++ k) t

/-- Shape skeleton of a tensor: the value is replaced by a zero matrix of
the same shape and location/gradient data is normalised. -/
def Tensor.canon (t : Tensor) : Tensor :=
  { value := t.value.map fun r => List.replicate r.length 0,
    location := .cpu, requiresGrad := false }

/-- Structural skeleton of a module: tensors are reduced to their shapes,
plain attributes are dropped. Two modules have identical structure (same
names, nesting, persistence flags and tensor shapes) exactly when their
skeletons are equal. -/
def Module.skeleton : Module → Module
  | .mk ps bs _ cs =>
    .mk (ps.map fun p => (p.1, p.2.canon))
        (bs.map fun b => (b.1, b.2.1.canon, b.2.2))
        []
        (cs.attach.map fun c => (c.1.1, c.1.2.skeleton))
decreasing_by
  have h1 := List.sizeOf_lt_of_mem c.2
  have h2 : sizeOf c.1.2 < sizeOf c.1 := by
    obtain ⟨⟨a, b⟩, hc⟩ := c
    simp
  simp only [Module.mk.sizeOf_spec]
  omega

/-- Structural induction over the module tree with induction hypotheses
for all children. -/
theorem Module.inductionOn {P : Module → Prop}
    (h : ∀ ps bs pl cs, (∀ c ∈ cs, P c.2) → P (.mk ps bs pl cs)) :
    ∀ m, P m
  | .mk ps bs pl cs => h ps bs pl cs (fun c hc => Module.inductionOn h c.2)
decreasing_by
  have h1 := List.sizeOf_lt_of_mem hc
  have h2 : sizeOf c.2 < sizeOf c := by
    obtain ⟨a, b⟩ := c
    simp
  simp only [Module.mk.sizeOf_spec]
  omega

theorem Module.transferState_def (L : Location) (ps : List (String × Tensor))
    (bs : List (String × Tensor × Bool)) (pl : List (String × Tensor))
    (cs : List (String × Module)) :
    Module.transferState L (.mk ps bs pl cs)
    = .mk (ps.map fun p => (p.1, p.2.relocate L))
        (bs.map fun b => (b.1, b.2.1.relocate L, b.2.2))
        pl
        (cs.map fun c => (c.1, c.2.transferState L)) := by
  rw [Module.transferState]
  rw [List.attach_map_val cs (fun c => (c.1, c.2.transferState L))]

theorem Module.exportState_def (ps : List (String × Tensor))
    (bs : List (String × Tensor × Bool)) (pl : List (String × Tensor))
    (cs : List (String × Module)) :
    Module.exportState (.mk ps bs pl cs)
    = ps
      ++ bs.filterMap (fun b => if b.2.2 then some (b.1, b.2.1) else none)
      ++ (cs.map fun c =>
            c.2.exportState.map fun e => (c.1 ++ "." ++ e.1, e.2)).flatten := by
  rw [Module.exportState]
  rw [List.attach_map_val cs
    (fun c => c.2.exportState.map fun e => (c.1 ++ "." ++ e.1, e.2))]

theorem Module.applyImport_def (mp : List (String × Tensor)) (pre : String)
    (ps : List (String × Tensor)) (bs : List (String × Tensor × Bool))
    (pl : List (String × Tensor)) (cs : List (String × Module)) :
    Module.applyImport mp pre (.mk ps bs pl cs)
    = .mk (ps.map fun p => (p.1, updateTensor mp (pre ++ p.1) p.2))
        (bs.map fun b =>
          if b.2.2 then (b.1, updateTensor mp (pre ++ b.1) b.2.1, b.2.2) else b)
        pl
        (cs.map fun c => (c.1, c.2.applyImport mp (pre ++ c.1 ++ "."))) := by
  rw [Module.applyImport]
  rw [List.attach_map_val cs (fun c => (c.1, c.2.applyImport mp (pre ++ c.1 ++ ".")))]

theorem Module.stateTensors_def (ps : List (String × Tensor))
    (bs : List (String × Tensor × Bool)) (pl : List (String × Tensor))
    (cs : List (String × Module)) :
    Module.stateTensors (.mk ps bs pl cs)
    = ps.map Prod.snd ++ bs.map (fun b => b.2.1)
      ++ (cs.map fun c => c.2.stateTensors).flatten := by
  rw [Module.stateTensors]
  rw [List.attach_map_val cs (fun c => c.2.stateTensors)]

theorem Module.parametersList_def (ps : List (String × Tensor))
    (bs : List (String × Tensor × Bool)) (pl : List (String × Tensor))
    (cs : List (String × Module)) :
    Module.parametersList (.mk ps bs pl cs)
    = ps.map Prod.snd ++ (cs.map fun c => c.2.parametersList).flatten := by
  rw [Module.parametersList]
  rw [List.attach_map_val cs (fun c => c.2.parametersList)]

theorem Module.buffersNonGrad_def (ps : List (String × Tensor))
    (bs : List (String × Tensor × Bool)) (pl : List (String × Tensor))
    (cs : List (String × Module)) :
    Module.buffersNonGrad (.mk ps bs pl cs)
    ↔ ((∀ b ∈ bs, b.2.1.requiresGrad = false)
        ∧ ∀ c ∈ cs, c.2.buffersNonGrad) := by
  rw [Module.buffersNonGrad]
  constructor
  · rintro ⟨hb, hcs⟩
    refine ⟨hb, fun c hc => hcs ⟨c, hc⟩ (List.mem_attach cs ⟨c, hc⟩)⟩
  · rintro ⟨hb, hcs⟩
    exact ⟨hb, fun c _ => hcs c.1 c.2⟩

/-- Relocated tensors are located at the target. -/
theorem Tensor.relocate_location (t : Tensor) (L : Location) :
    (t.relocate L).location = L := rfl

/-- Transfer reaches every parameter and buffer tensor of every descendant. -/
theorem transfer_locates_stateTensors (L : Location) :
    ∀ m : Module, ∀ t ∈ (m.transferState L).stateTensors, t.location = L := by
  apply Module.inductionOn
  intro ps bs pl cs ih t ht
  rw [Module.transferState_def, Module.stateTensors_def] at ht
  simp only [List.mem_append, List.mem_map, List.mem_flatten] at ht
  rcases ht with (⟨p, hp, rfl⟩ | ⟨b, hb, rfl⟩) | ⟨l, hl, htl⟩
  · obtain ⟨q, hq, rfl⟩ := hp
    rfl
  · obtain ⟨q, hq, rfl⟩ := hb
    rfl
  · obtain ⟨c, hc, rfl⟩ := hl
    obtain ⟨d, hd, rfl⟩ := hc
    exact ih d hd t htl

/-- A registered buffer's tensor occurs among the module's state tensors. -/
theorem Module.getBuffer_mem_stateTensors (m : Module) (n : String) (t : Tensor)
    (h : m.getBuffer n = some t) : t ∈ m.stateTensors := by
  cases m with
  | mk ps bs pl cs =>
    rw [Module.stateTensors_def]
    simp only [List.mem_append, List.mem_map]
    unfold Module.getBuffer at h
    simp only [Option.map_eq_some'] at h
    obtain ⟨b, hb, rfl⟩ := h
    exact Or.inl (Or.inr ⟨b, List.mem_of_find?_eq_some hb, rfl⟩)

/-- C1: after the device/location transfer operation with target L, every
Parameter and every registered Buffer of the module and of all its
descendant modules is located at L; in particular a buffer registered
under the name "mask" is located at L afterwards. -/
theorem C1_transfer_relocates_all_state (L : Location) (m : Module) :
    (∀ t ∈ (m.transferState L).stateTensors, t.location = L)
    ∧ (∀ t, (m.transferState L).getBuffer "mask" = some t → t.location = L) := by
  refine ⟨transfer_locates_stateTensors L m, fun t ht => ?_⟩
  exact transfer_locates_stateTensors L m t
    (Module.getBuffer_mem_stateTensors _ _ _ ht)

/-- Witness for C1 on the notebook's module (context_length 6,
transferred to the GPU): the mask buffer is on the GPU afterwards. -/
theorem C1_witness :
    ((CausalAttentionWithBuffer.make 6 [] [] []).transferState .cuda).getBuffer "mask"
      = some ⟨triuOnes 6, .cuda, false⟩
    ∧ (⟨triuOnes 6, .cuda, false⟩ : Tensor).location = .cuda := by
  have hb : ((CausalAttentionWithBuffer.make 6 [] [] []).transferState .cuda).getBuffer "mask"
      = some ⟨triuOnes 6, .cuda, false⟩ := by
    simp only [CausalAttentionWithBuffer.make, linearModule, dropoutModule,
      Module.transferState_def, List.map_cons, List.map_nil]
    decide
  refine ⟨hb, ?_⟩
  exact (C1_transfer_relocates_all_state .cuda
    (CausalAttentionWithBuffer.make 6 [] [] [])).2 _ hb

/-- Transfer leaves the plain (unregistered) attribute list untouched. -/
theorem Module.transfer_plain_frame (L : Location) (m : Module) :
    (m.transferState L).plain = m.plain := by
  cases m with
  | mk ps bs pl cs =>
    rw [Module.transferState_def]
    rfl

/-- Transfer relocates every top-level buffer. -/
theorem Module.transfer_buffers_located (L : Location) (m : Module) :
    ∀ b ∈ (m.transferState L).buffers, b.2.1.location = L := by
  cases m with
  | mk ps bs pl cs =>
    rw [Module.transferState_def]
    intro b hb
    simp only [Module.buffers, List.mem_map] at hb
    obtain ⟨q, hq, rfl⟩ := hb
    rfl

/-- Every exported key is a top-level parameter name, a top-level buffer
name, or a dotted key coming from a child. -/
theorem Module.exportKey_cases (m : Module) :
    ∀ k ∈ m.exportableKeys,
      k ∈ m.params.map Prod.fst ∨ k ∈ m.buffers.map Prod.fst
        ∨ k.contains '.' = true := by
  cases m with
  | mk ps bs pl cs =>
    intro k hk
    unfold Module.exportableKeys at hk
    rw [Module.exportState_def] at hk
    simp only [List.map_append, List.mem_append, List.mem_map] at hk
    rcases hk with (⟨p, hp, rfl⟩ | ⟨e, he, rfl⟩) | ⟨e, he, rfl⟩
    · exact Or.inl (by simp only [Module.params]; exact List.mem_map_of_mem Prod.fst hp)
    · simp only [List.mem_filterMap] at he
      obtain ⟨b, hb, hbe⟩ := he
      by_cases hper : b.2.2
      · simp only [hper, if_pos] at hbe
        cases hbe
        exact Or.inr (Or.inl (by
          simp only [Module.buffers]
          exact List.mem_map_of_mem Prod.fst hb))
      · simp [hper] at hbe
    · simp only [List.mem_flatten, List.mem_map] at he
      obtain ⟨l, ⟨c, hc, rfl⟩, hel⟩ := he
      simp only [List.mem_map] at hel
      obtain ⟨e2, he2, rfl⟩ := hel
      refine Or.inr (Or.inr ?_)
      rw [String.contains, String.any_eq]
      simp [String.data_append]

/-- C2: transferring a module relocates its registered buffers to the
target but leaves plain (unregistered) tensor attributes exactly as they
were, and a dot-free plain attribute name that collides with no parameter
or buffer name never appears in the serialized state. -/
theorem C2_plain_attribute_not_registered (L : Location) (m : Module)
    (n : String) (t : Tensor)
    (hp : (n, t) ∈ m.plain)
    (hn1 : n ∉ m.params.map Prod.fst) (hn2 : n ∉ m.buffers.map Prod.fst)
    (hdot : n.contains '.' = false) :
    (n, t) ∈ (m.transferState L).plain
    ∧ (∀ b ∈ (m.transferState L).buffers, b.2.1.location = L)
    ∧ n ∉ m.exportableKeys := by
  refine ⟨?_, Module.transfer_buffers_located L m, ?_⟩
  · rw [Module.transfer_plain_frame]
    exact hp
  · intro hk
    rcases Module.exportKey_cases m n hk with h | h | h
    · exact hn1 h
    · exact hn2 h
    · rw [hdot] at h
      cases h

/-- Witness for C2 on the notebook's bufferless module: its plain mask
stays on the CPU after a GPU transfer and is absent from the export. -/
theorem C2_witness :
    ((⟨"mask", triuOnes 6, .cpu, false⟩ : String × Tensor)
        ∈ ((CausalAttentionWithoutBuffers.make 6 [] [] []).transferState .cuda).plain)
    ∧ (∀ b ∈ ((CausalAttentionWithoutBuffers.make 6 [] [] []).transferState .cuda).buffers,
        b.2.1.location = .cuda)
    ∧ "mask" ∉ (CausalAttentionWithoutBuffers.make 6 [] [] []).exportableKeys := by
  exact C2_plain_attribute_not_registered .cuda
    (CausalAttentionWithoutBuffers.make 6 [] [] []) "mask" ⟨triuOnes 6, .cpu, false⟩
    (by decide) (by decide) (by decide)
    (by rw [String.contains, String.any_eq]; decide)

/-- Export produces exactly the declaratively exportable entries. -/
theorem mem_exportState_iff (m : Module) (k : String) (t : Tensor) :
    (k, t) ∈ m.exportState ↔ ExportEntry m k t := by
  constructor
  · revert k t
    induction m using Module.inductionOn with
    | h ps bs pl cs ih =>
      intro k t hk
      rw [Module.exportState_def] at hk
      simp only [List.mem_append] at hk
      rcases hk with (hk | hk) | hk
      · exact ExportEntry.param (by simpa [Module.params] using hk)
      · simp only [List.mem_filterMap] at hk
        obtain ⟨b, hb, hbe⟩ := hk
        obtain ⟨n1, t1, p1⟩ := b
        by_cases hper : p1 = true
        · subst hper
          simp only [if_pos] at hbe
          obtain ⟨rfl, rfl⟩ : n1 = k ∧ t1 = t := by
            cases hbe
            exact ⟨rfl, rfl⟩
          refine ExportEntry.buffer (m := Module.mk ps bs pl cs) ?_
          simpa [Module.buffers] using hb
        · simp [hper] at hbe
      · simp only [List.mem_flatten, List.mem_map] at hk
        obtain ⟨l, ⟨c, hc, rfl⟩, hel⟩ := hk
        simp only [List.mem_map] at hel
        obtain ⟨e, he, heq⟩ := hel
        obtain ⟨rfl, rfl⟩ : c.1 ++ "." ++ e.1 = k ∧ e.2 = t := by
          cases heq
          exact ⟨rfl, rfl⟩
        exact ExportEntry.child (m := Module.mk ps bs pl cs)
          (by simpa [Module.children] using hc) (ih c hc e.1 e.2 he)
  · intro h
    induction h with
    | param hp =>
      rename_i m n t
      cases m with
      | mk ps bs pl cs =>
        rw [Module.exportState_def]
        simp only [List.mem_append]
        exact Or.inl (Or.inl (by simpa [Module.params] using hp))
    | buffer hb =>
      rename_i m n t
      cases m with
      | mk ps bs pl cs =>
        rw [Module.exportState_def]
        simp only [List.mem_append]
        refine Or.inl (Or.inr ?_)
        simp only [List.mem_filterMap]
        refine ⟨(n, t, true), by simpa [Module.buffers] using hb, by simp⟩
    | child hc he ih =>
      rename_i m c mc k t
      cases m with
      | mk ps bs pl cs =>
        rw [Module.exportState_def]
        simp only [List.mem_append]
        refine Or.inr ?_
        simp only [List.mem_flatten, List.mem_map]
        refine ⟨mc.exportState.map fun e => (c ++ "." ++ e.1, e.2),
          ⟨(c, mc), by simpa [Module.children] using hc, rfl⟩, ?_⟩
        simp only [List.mem_map]
        exact ⟨(k, t), ih, rfl⟩

/-- C3: export_state contains exactly the Parameters and the
persistence-flagged Buffers of the module and its descendants, keyed by
hierarchical dotted name; on the notebook's module the traversal lists the
parent's own buffer first and then the children's parameters in
declaration order, and nothing else. -/
theorem C3_export_exactly_registered_state :
    (∀ (m : Module) (k : String) (t : Tensor),
      (k, t) ∈ m.exportState ↔ ExportEntry m k t)
    ∧ ∀ wq wk wv : List (List ℚ),
        (CausalAttentionWithBuffer.make 6 wq wk wv).exportableKeys
          = ["mask", "W_query.weight", "W_key.weight", "W_value.weight"] := by
  refine ⟨mem_exportState_iff, fun wq wk wv => ?_⟩
  unfold Module.exportableKeys
  simp only [CausalAttentionWithBuffer.make, linearModule, dropoutModule,
    Module.exportState_def, List.map_cons, List.map_nil, List.filterMap_cons,
    List.filterMap_nil, if_pos, List.nil_append, List.append_nil,
    List.flatten_cons, List.flatten_nil, List.cons_append, List.map_append]
  decide

/-- C5: export reads the buffer's current value at call time: after the
boolean-mask assignment `mask[mask == 1] = 2`, the exported entry under
"mask" holds 2 strictly above the diagonal — not the construction-time
snapshot of ones. -/
theorem C5_export_reflects_mutation (wq wk wv : List (List ℚ)) :
    lookupKey (((CausalAttentionWithBuffer.make 6 wq wk wv).mutateBuffer "mask"
        (maskedAssign 1 2)).exportState) "mask"
      = some ⟨[[0, 2, 2, 2, 2, 2], [0, 0, 2, 2, 2, 2], [0, 0, 0, 2, 2, 2],
               [0, 0, 0, 0, 2, 2], [0, 0, 0, 0, 0, 2], [0, 0, 0, 0, 0, 0]],
              .cpu, false⟩
    ∧ maskedAssign 1 2 (triuOnes 6) ≠ triuOnes 6 := by
  constructor
  · simp only [CausalAttentionWithBuffer.make, Module.mutateBuffer,
      Module.params, Module.buffers, Module.plain, Module.children,
      linearModule, dropoutModule, List.map_cons, List.map_nil,
      Module.exportState_def, List.filterMap_cons, List.filterMap_nil,
      List.flatten_cons, List.flatten_nil, List.nil_append, List.append_nil,
      List.cons_append, lookupKey, List.find?]
    simp
    decide
  · decide

/-- C8: with context_length 6 the registered mask is the strictly upper
triangular ones matrix: every entry above the diagonal is 1, every other
entry is 0; in particular row 0 is 1 at columns 1..5 and 0 at column 0,
and row 5 is all zeros. -/
theorem C8_mask_upper_triangular (wq wk wv : List (List ℚ)) :
    (∀ i < 6, ∀ j < 6,
      ((((CausalAttentionWithBuffer.make 6 wq wk wv).bufferValue "mask").get? i).getD []).get? j
        = some (if i < j then 1 else 0))
    ∧ (∀ j, 1 ≤ j → j ≤ 5 →
        ((((CausalAttentionWithBuffer.make 6 wq wk wv).bufferValue "mask").get? 0).getD []).get? j
          = some 1)
    ∧ ((((CausalAttentionWithBuffer.make 6 wq wk wv).bufferValue "mask").get? 0).getD []).get? 0
        = some 0
    ∧ ∀ j < 6,
        ((((CausalAttentionWithBuffer.make 6 wq wk wv).bufferValue "mask").get? 5).getD []).get? j
          = some 0 := by
  have hv : (CausalAttentionWithBuffer.make 6 wq wk wv).bufferValue "mask"
      = triuOnes 6 := rfl
  rw [hv]
  refine ⟨by decide, ?_, by decide, by decide⟩
  intro j h1 h5
  have hj : j < 6 := Nat.lt_succ_of_le h5
  interval_cases j <;> decide

/-- Transfer never changes a tensor's gradient flag, so the cleared flag
of every buffer is preserved. -/
theorem transfer_preserves_buffersNonGrad (L : Location) :
    ∀ m : Module, m.buffersNonGrad → (m.transferState L).buffersNonGrad := by
  apply Module.inductionOn
  intro ps bs pl cs ih h
  rw [Module.buffersNonGrad_def] at h
  rw [Module.transferState_def, Module.buffersNonGrad_def]
  refine ⟨?_, ?_⟩
  · intro b hb
    simp only [List.mem_map] at hb
    obtain ⟨q, hq, rfl⟩ := hb
    exact h.1 q hq
  · intro c hc
    simp only [List.mem_map] at hc
    obtain ⟨d, hd, rfl⟩ := hc
    exact ih d hd (h.2 d hd)

/-- Importing overwrites values only, never gradient flags, so the cleared
flag of every buffer is preserved. -/
theorem applyImport_preserves_buffersNonGrad (mp : List (String × Tensor)) :
    ∀ m : Module, ∀ pre : String,
      m.buffersNonGrad → (m.applyImport mp pre).buffersNonGrad := by
  apply Module.inductionOn
  intro ps bs pl cs ih pre h
  rw [Module.buffersNonGrad_def] at h
  rw [Module.applyImport_def, Module.buffersNonGrad_def]
  refine ⟨?_, ?_⟩
  · intro b hb
    simp only [List.mem_map] at hb
    obtain ⟨q, hq, rfl⟩ := hb
    by_cases hper : q.2.2
    · simp only [hper, if_pos]
      have := h.1 q hq
      unfold updateTensor
      cases lookupKey mp (pre ++ q.1) with
      | none => exact this
      | some src =>
        by_cases hs : q.2.1.sameShape src
        · simp only [hs, if_pos]
          exact this
        · simp only [hs]
          simpa using this
    · simp only [hper]
      simpa using h.1 q hq
  · intro c hc
    simp only [List.mem_map] at hc
    obtain ⟨d, hd, rfl⟩ := hc
    exact ih d hd _ (h.2 d hd)

/-- A successful import returns the value-overwriting pass of the module. -/
theorem importState_ok_eq (m : Module) (mp : List (String × Tensor))
    (s : Bool) (m' : Module) (d1 d2 : List String)
    (h : m.importState mp s = .ok (m', d1, d2)) :
    m' = m.applyImport mp "" := by
  unfold Module.importState at h
  by_cases hks : s ∧ ((m.exportState.map Prod.fst).filter
      (fun k => ¬ (mp.map Prod.fst).contains k) ≠ []
    ∨ (mp.map Prod.fst).filter
      (fun k => ¬ (m.exportState.map Prod.fst).contains k) ≠ [])
  · simp only [hks, if_pos] at h
    cases h
  · simp only [hks, if_neg, if_false] at h
    cases hse : firstShapeErr m.exportState mp with
    | some k =>
      rw [hse] at h
      cases h
    | none =>
      rw [hse] at h
      cases h
      rfl

/-- C6: register_buffer stores the value with the gradient-tracking flag
forced off and never extends the optimizer's parameter enumeration, and
the cleared flag of all buffers is preserved by transfer and import
(export does not modify the module at all). -/
theorem C6_buffers_never_trainable :
    (∀ (m : Module) (n : String) (v : Tensor) (p : Bool) (m' : Module),
        m.registerBuffer n v p = .ok m' →
        (n, { v with requiresGrad := false }, p) ∈ m'.buffers
          ∧ m'.parametersList = m.parametersList)
    ∧ (∀ (m : Module) (L : Location),
        m.buffersNonGrad → (m.transferState L).buffersNonGrad)
    ∧ (∀ (m m' : Module) (mp : List (String × Tensor)) (s : Bool)
          (d1 d2 : List String),
        m.importState mp s = .ok (m', d1, d2) →
        m.buffersNonGrad → m'.buffersNonGrad) := by
  refine ⟨?_, fun m L => transfer_preserves_buffersNonGrad L m, ?_⟩
  · intro m n v p m' h
    unfold Module.registerBuffer at h
    by_cases hb : n ∈ m.boundNames
    · simp only [hb, if_pos] at h
      cases h
    · simp only [hb, if_neg, if_false] at h
      cases h
      cases m with
      | mk ps bs pl cs =>
        constructor
        · simp [Module.buffers]
        · rw [Module.parametersList_def, Module.parametersList_def]
          rfl
  · intro m m' mp s d1 d2 h hg
    rw [importState_ok_eq m mp s m' d1 d2 h]
    exact applyImport_preserves_buffersNonGrad mp m "" hg

/-- Witness for C6: registering the notebook's mask (handed in with the
gradient flag set) stores it with the flag cleared, and the invariant
survives a transfer and a self-import on a one-buffer module. -/
theorem C6_witness :
    (("mask", (⟨triuOnes 6, .cpu, false⟩ : Tensor), true)
        ∈ (Module.mk [] [("mask", ⟨triuOnes 6, .cpu, false⟩, true)] [] []).buffers
      ∧ (Module.mk [] [("mask", ⟨triuOnes 6, .cpu, false⟩, true)] [] []).parametersList
          = (Module.mk [] [] [] []).parametersList)
    ∧ ((Module.mk [] [("b", ⟨[[1]], .cpu, false⟩, true)] [] []).transferState .cuda).buffersNonGrad
    ∧ (Module.mk [] [("b", ⟨[[1]], .cpu, false⟩, true)] [] []).buffersNonGrad := by
  refine ⟨?_, ?_, ?_⟩
  · exact C6_buffers_never_trainable.1 (Module.mk [] [] [] []) "mask"
      ⟨triuOnes 6, .cpu, true⟩ true
      (Module.mk [] [("mask", ⟨triuOnes 6, .cpu, false⟩, true)] [] []) rfl
  · refine C6_buffers_never_trainable.2.1 _ .cuda ?_
    rw [Module.buffersNonGrad_def]
    simp
  · rw [Module.buffersNonGrad_def]
    simp

/-- C9: with equal weight matrices, equal mask values and the same dropout
configuration, the module with the registered mask buffer computes exactly
the same function as the module holding the mask as a plain attribute —
registration changes only relocation/serialization behaviour. -/
theorem C9_buffer_registration_preserves_forward (mb mw : Module)
    (expF : ℚ → ℚ) (sqrtD p : ℚ) (keep : Nat → Nat → Bool)
    (batch : List (List (List ℚ)))
    (hq : mb.childWeight "W_query" = mw.childWeight "W_query")
    (hk : mb.childWeight "W_key" = mw.childWeight "W_key")
    (hv : mb.childWeight "W_value" = mw.childWeight "W_value")
    (hm : mb.bufferValue "mask" = mw.plainValue "mask") :
    CausalAttentionWithBuffer.forward mb expF sqrtD p keep batch
      = CausalAttentionWithoutBuffers.forward mw expF sqrtD p keep batch := by
  unfold CausalAttentionWithBuffer.forward CausalAttentionWithoutBuffers.forward
  rw [hq, hk, hv, hm]

/-- Witness for C9: the two notebook modules built from the same weights
produce the same output on a concrete batch. -/
theorem C9_witness :
    CausalAttentionWithBuffer.forward
        (CausalAttentionWithBuffer.make 3 [[1, 0], [0, 1]] [[1, 2], [3, 4]] [[1, 0], [1, 1]])
        id 1 0 (fun _ _ => true) [[[1, 0], [0, 1], [1, 1]]]
      = CausalAttentionWithoutBuffers.forward
        (CausalAttentionWithoutBuffers.make 3 [[1, 0], [0, 1]] [[1, 2], [3, 4]] [[1, 0], [1, 1]])
        id 1 0 (fun _ _ => true) [[[1, 0], [0, 1], [1, 1]]] := by
  exact C9_buffer_registration_preserves_forward _ _ id 1 0 (fun _ _ => true)
    [[[1, 0], [0, 1], [1, 1]]] rfl rfl rfl rfl

theorem triuOnes_length (n : Nat) : (triuOnes n).length = n := by
  simp [triuOnes]

theorem triuOnes_getElem (c i : Nat) (hi : i < c) :
    (triuOnes c)[i]? = some ((List.range c).map fun j => if i < j then (1 : ℚ) else 0) := by
  unfold triuOnes
  rw [List.getElem?_map, List.getElem?_range hi]
  rfl

/-- Slicing the causal mask of a larger context down to `n` tokens yields
exactly the `n`-token causal mask. -/
theorem triuOnes_cut (c n : Nat) (h : n ≤ c) :
    ((triuOnes c).take n).map (fun r => r.take n) = triuOnes n := by
  apply List.ext_getElem?
  intro i
  rw [List.getElem?_map, List.getElem?_take]
  by_cases hi : i < n
  · simp only [hi, if_pos]
    rw [triuOnes_getElem c i (lt_of_lt_of_le hi h)]
    have hrhs : (triuOnes n)[i]?
        = some ((List.range n).map fun j => if i < j then (1 : ℚ) else 0) :=
      triuOnes_getElem n i hi
    rw [hrhs]
    simp only [Option.map_some']
    congr 1
    apply List.ext_getElem?
    intro j
    rw [List.getElem?_take, List.getElem?_map, List.getElem?_map]
    by_cases hj : j < n
    · simp only [hj, if_pos]
      rw [List.getElem?_range (lt_of_lt_of_le hj h), List.getElem?_range hj]
    · simp only [hj, if_neg, if_false]
      rw [List.getElem?_eq_none (by simpa using le_of_not_lt hj)]
      rfl
  · simp only [hi, if_neg, if_false]
    rw [List.getElem?_eq_none]
    · rfl
    · rw [triuOnes_length]
      exact le_of_not_lt hi

theorem matmulT_getElem (A B : List (List ℚ)) (i : Nat) :
    (matmulT A B)[i]? = A[i]?.map fun r => B.map (dot r) := by
  unfold matmulT
  rw [List.getElem?_map]

theorem matmulT_length (A B : List (List ℚ)) : (matmulT A B).length = A.length := by
  simp [matmulT]

theorem vecScale_zero (v : List ℚ) : vecScale 0 v = List.replicate v.length 0 := by
  unfold vecScale
  apply List.ext_getElem?
  intro j
  rw [List.getElem?_map, List.getElem?_replicate]
  by_cases hj : j < v.length
  · rw [List.getElem?_eq_getElem hj]
    simp [hj]
  · rw [List.getElem?_eq_none (le_of_not_lt hj)]
    simp [hj]

/-- Dropout with probability 0 keeps everything and rescales by 1, i.e. is
the identity. -/
theorem dropoutMat_zero (keep : Nat → Nat → Bool) (w : List (List ℚ)) :
    dropoutMat 0 keep w = w := by
  unfold dropoutMat
  simp

theorem matmulT_headI_length (A B : List (List ℚ)) (h : A ≠ []) :
    (matmulT A B).headI.length = B.length := by
  cases A with
  | nil => exact absurd rfl h
  | cons a as => simp [matmulT]

theorem matmulT_row_length (A B : List (List ℚ)) :
    ∀ r ∈ matmulT A B, r.length = B.length := by
  intro r hr
  simp only [matmulT, List.mem_map] at hr
  obtain ⟨a, _, rfl⟩ := hr
  simp

/-- Two score rows that agree at positions up to `t` produce the same
masked softmax row under the causal mask row of `t`. -/
theorem masked_scores_eq (expF : ℚ → ℚ) (sqrtD : ℚ) (n t : Nat)
    (s1 s2 : List ℚ) (hl1 : s1.length = n) (hl2 : s2.length = n)
    (hag : ∀ j, j ≤ t → s1[j]? = s2[j]?) :
    softmaxMaskedRow expF sqrtD
        ((List.range n).map fun j => if t < j then (1 : ℚ) else 0) s1
      = softmaxMaskedRow expF sqrtD
        ((List.range n).map fun j => if t < j then (1 : ℚ) else 0) s2 := by
  unfold softmaxMaskedRow
  have he : List.zipWith
        (fun mj sj => if mj ≠ 0 then (0 : ℚ) else expF (sj / sqrtD))
        ((List.range n).map fun j => if t < j then (1 : ℚ) else 0) s1
      = List.zipWith
        (fun mj sj => if mj ≠ 0 then (0 : ℚ) else expF (sj / sqrtD))
        ((List.range n).map fun j => if t < j then (1 : ℚ) else 0) s2 := by
    apply List.ext_getElem?
    intro j
    rw [List.getElem?_zipWith, List.getElem?_zipWith]
    by_cases hj : j < n
    · simp only [List.getElem?_map, List.getElem?_range hj]
      have hj1 : j < s1.length := by rw [hl1]; exact hj
      have hj2 : j < s2.length := by rw [hl2]; exact hj
      rw [List.getElem?_eq_getElem hj1, List.getElem?_eq_getElem hj2]
      by_cases htj : t < j
      · simp [htj]
      · have hxy := hag j (le_of_not_lt htj)
        rw [List.getElem?_eq_getElem hj1, List.getElem?_eq_getElem hj2] at hxy
        have hss : s1[j] = s2[j] := Option.some.inj hxy
        simp [htj, hss]
    · have h1 : s1[j]? = none := List.getElem?_eq_none (by rw [hl1]; exact le_of_not_lt hj)
      have h2 : s2[j]? = none := List.getElem?_eq_none (by rw [hl2]; exact le_of_not_lt hj)
      have hm : ((List.range n).map fun j => if t < j then (1 : ℚ) else 0)[j]?
          = none := List.getElem?_eq_none (by simpa using le_of_not_lt hj)
      rw [h1, h2, hm]
  rw [he]

/-- Under the causal mask row of `t`, every weight strictly to the right of
`t` is zero. -/
theorem softmaxMaskedRow_masked_zero (expF : ℚ → ℚ) (sqrtD : ℚ)
    (n t j : Nat) (s : List ℚ) (hl : s.length = n) (hj : j < n) (htj : t < j) :
    (softmaxMaskedRow expF sqrtD
        ((List.range n).map fun i => if t < i then (1 : ℚ) else 0) s)[j]?
      = some 0 := by
  unfold softmaxMaskedRow
  rw [List.getElem?_map, List.getElem?_zipWith]
  simp only [List.getElem?_map, List.getElem?_range hj]
  rw [List.getElem?_eq_getElem (show j < s.length by rw [hl]; exact hj)]
  simp [htj]

/-- A row combination is unaffected by rows of the matrix whose
coefficient is zero: with the same coefficients, zero at all positions
after `t`, and matrices agreeing up to `t`, the results coincide. -/
theorem rowCombo_congr (w : List ℚ) (V1 V2 : List (List ℚ)) (width t : Nat)
    (hlen : V1.length = V2.length)
    (hag : ∀ j, j ≤ t → V1[j]? = V2[j]?)
    (hz : ∀ j, t < j → j < V1.length → w[j]? = some 0)
    (hr1 : ∀ r ∈ V1, r.length = width) (hr2 : ∀ r ∈ V2, r.length = width) :
    rowCombo w V1 width = rowCombo w V2 width := by
  unfold rowCombo
  have hzw : List.zipWith vecScale w V1 = List.zipWith vecScale w V2 := by
    apply List.ext_getElem?
    intro j
    rw [List.getElem?_zipWith, List.getElem?_zipWith]
    by_cases hj1 : j < V1.length
    · have hj2 : j < V2.length := by rw [← hlen]; exact hj1
      rw [List.getElem?_eq_getElem hj1, List.getElem?_eq_getElem hj2]
      by_cases htj : t < j
      · rw [hz j htj hj1]
        have e1 : vecScale 0 (V1[j]) = List.replicate width 0 := by
          rw [vecScale_zero, hr1 _ (List.getElem_mem hj1)]
        have e2 : vecScale 0 (V2[j]) = List.replicate width 0 := by
          rw [vecScale_zero, hr2 _ (List.getElem_mem hj2)]
        show some (vecScale 0 (V1[j])) = some (vecScale 0 (V2[j]))
        rw [e1, e2]
      · have hv := hag j (le_of_not_lt htj)
        rw [List.getElem?_eq_getElem hj1, List.getElem?_eq_getElem hj2] at hv
        have hvv : V1[j] = V2[j] := Option.some.inj hv
        rw [hvv]
    · have h1 : V1[j]? = none := List.getElem?_eq_none (le_of_not_lt hj1)
      have h2 : V2[j]? = none :=
        List.getElem?_eq_none (by rw [← hlen]; exact le_of_not_lt hj1)
      rw [h1, h2]
  rw [hzw]

/-- Row `t` of the causal attention output depends only on input rows at
positions up to `t` (dropout off, unmodified triangular mask). -/
theorem causal_row_noninterference (expF : ℚ → ℚ) (sqrtD : ℚ)
    (wq wk wv : List (List ℚ)) (ctx t : Nat) (x y : List (List ℚ))
    (hlen : y.length = x.length) (hctx : x.length ≤ ctx)
    (hagree : ∀ j, j ≤ t → x[j]? = y[j]?) :
    (causalForwardOne expF sqrtD 0 (fun _ _ => true) wq wk wv (triuOnes ctx) x)[t]?
      = (causalForwardOne expF sqrtD 0 (fun _ _ => true) wq wk wv (triuOnes ctx) y)[t]? := by
  simp only [causalForwardOne, dropoutMat_zero, hlen,
    triuOnes_cut ctx x.length hctx, matmul, List.getElem?_map]
  by_cases ht : t < x.length
  · have hty : t < y.length := by rw [hlen]; exact ht
    have hxyt : y[t]? = x[t]? := (hagree t le_rfl).symm
    have hgety : y.get ⟨t, hty⟩ = x.get ⟨t, ht⟩ := by
      have h := hxyt
      rw [List.getElem?_eq_getElem ht, List.getElem?_eq_getElem hty] at h
      exact Option.some.inj h
    have hWx : (List.zipWith (softmaxMaskedRow expF sqrtD) (triuOnes x.length)
          (matmulT (matmulT x wq) (matmulT x wk)))[t]?
        = some (softmaxMaskedRow expF sqrtD
            ((List.range x.length).map fun j => if t < j then (1 : ℚ) else 0)
            ((matmulT x wk).map (dot (wq.map (dot (x.get ⟨t, ht⟩)))))) := by
      rw [List.getElem?_zipWith, triuOnes_getElem _ t ht, matmulT_getElem,
        matmulT_getElem, List.getElem?_eq_getElem ht]
      rfl
    have hWy : (List.zipWith (softmaxMaskedRow expF sqrtD) (triuOnes x.length)
          (matmulT (matmulT y wq) (matmulT y wk)))[t]?
        = some (softmaxMaskedRow expF sqrtD
            ((List.range x.length).map fun j => if t < j then (1 : ℚ) else 0)
            ((matmulT y wk).map (dot (wq.map (dot (y.get ⟨t, hty⟩)))))) := by
      rw [List.getElem?_zipWith, triuOnes_getElem _ t ht, matmulT_getElem,
        matmulT_getElem, List.getElem?_eq_getElem hty]
      rfl
    rw [hWx, hWy, hgety]
    simp only [Option.map_some']
    have hxne : x ≠ [] :=
      List.ne_nil_of_length_pos (Nat.lt_of_le_of_lt (Nat.zero_le t) ht)
    have hyne : y ≠ [] :=
      List.ne_nil_of_length_pos (Nat.lt_of_le_of_lt (Nat.zero_le t) hty)
    rw [matmulT_headI_length x wv hxne, matmulT_headI_length y wv hyne]
    have hsm : softmaxMaskedRow expF sqrtD
          ((List.range x.length).map fun j => if t < j then (1 : ℚ) else 0)
          ((matmulT x wk).map (dot (wq.map (dot (x.get ⟨t, ht⟩)))))
        = softmaxMaskedRow expF sqrtD
          ((List.range x.length).map fun j => if t < j then (1 : ℚ) else 0)
          ((matmulT y wk).map (dot (wq.map (dot (x.get ⟨t, ht⟩))))) := by
      apply masked_scores_eq expF sqrtD x.length t
      · simp [matmulT_length]
      · simp [matmulT_length, hlen]
      · intro j hj
        rw [List.getElem?_map, List.getElem?_map, matmulT_getElem,
          matmulT_getElem, hagree j hj]
    rw [hsm]
    congr 1
    apply rowCombo_congr _ _ _ _ t
    · simp [matmulT_length, hlen]
    · intro j hj
      rw [matmulT_getElem, matmulT_getElem, hagree j hj]
    · intro j htj hjl
      apply softmaxMaskedRow_masked_zero expF sqrtD x.length t j _ ?_ ?_ htj
      · simp [matmulT_length, hlen]
      · simpa [matmulT_length] using hjl
    · exact matmulT_row_length x wv
    · exact matmulT_row_length y wv
  · have hlx : (List.zipWith (softmaxMaskedRow expF sqrtD) (triuOnes x.length)
        (matmulT (matmulT x wq) (matmulT x wk))).length ≤ t := by
      simp only [List.length_zipWith, triuOnes_length, matmulT_length]
      simp [le_of_not_lt ht]
    have hly : (List.zipWith (softmaxMaskedRow expF sqrtD) (triuOnes x.length)
        (matmulT (matmulT y wq) (matmulT y wk))).length ≤ t := by
      simp only [List.length_zipWith, triuOnes_length, matmulT_length, hlen]
      simp [le_of_not_lt ht]
    rw [List.getElem?_eq_none hlx, List.getElem?_eq_none hly]
    rfl

/-- C10: causal noninterference — with dropout probability 0 and the
unmodified triangular mask, output row `t` of the forward pass depends
only on input rows at positions up to `t`: two batches agreeing on
positions 0..t give equal outputs at position `t` regardless of later
positions. -/
theorem C10_causal_noninterference (expF : ℚ → ℚ) (sqrtD : ℚ)
    (wq wk wv : List (List ℚ)) (ctxLen t : Nat) (x y : List (List ℚ))
    (hlen : y.length = x.length) (hctx : x.length ≤ ctxLen)
    (hagree : ∀ j, j ≤ t → x[j]? = y[j]?) :
    ((CausalAttentionWithBuffer.forward
        (CausalAttentionWithBuffer.make ctxLen wq wk wv)
        expF sqrtD 0 (fun _ _ => true) [x]).headI)[t]?
      = ((CausalAttentionWithBuffer.forward
        (CausalAttentionWithBuffer.make ctxLen wq wk wv)
        expF sqrtD 0 (fun _ _ => true) [y]).headI)[t]? := by
  show (causalForwardOne expF sqrtD 0 (fun _ _ => true) wq wk wv
      (triuOnes ctxLen) x)[t]?
    = (causalForwardOne expF sqrtD 0 (fun _ _ => true) wq wk wv
      (triuOnes ctxLen) y)[t]?
  exact causal_row_noninterference expF sqrtD wq wk wv ctxLen t x y hlen hctx hagree

/-- Witness for C10: two concrete 3-token inputs that agree on their first
two rows and differ in the third get the same output at position 1. -/
theorem C10_witness :
    ((CausalAttentionWithBuffer.forward
        (CausalAttentionWithBuffer.make 3 [[1, 0], [0, 1]] [[1, 1], [0, 1]] [[2, 0], [1, 1]])
        id 1 0 (fun _ _ => true) [[[1, 0], [0, 1], [5, 7]]]).headI)[1]?
      = ((CausalAttentionWithBuffer.forward
        (CausalAttentionWithBuffer.make 3 [[1, 0], [0, 1]] [[1, 1], [0, 1]] [[2, 0], [1, 1]])
        id 1 0 (fun _ _ => true) [[[1, 0], [0, 1], [9, 4]]]).headI)[1]? := by
  apply C10_causal_noninterference id 1 [[1, 0], [0, 1]] [[1, 1], [0, 1]] [[2, 0], [1, 1]]
    3 1 [[1, 0], [0, 1], [5, 7]] [[1, 0], [0, 1], [9, 4]] rfl (by decide)
  intro j hj
  interval_cases j <;> rfl

/-- Master description of the import pass: the export of the overwritten
module is the original export with every entry's value updated from the
mapping at its (prefixed) dotted key. -/
theorem applyImport_exportState (mp : List (String × Tensor)) :
    ∀ m : Module, ∀ pre : String,
      (m.applyImport mp pre).exportState
        = m.exportState.map fun e => (e.1, updateTensor mp (pre ++ e.1) e.2) := by
  apply Module.inductionOn
  intro ps bs pl cs ih pre
  rw [Module.applyImport_def, Module.exportState_def, Module.exportState_def]
  simp only [List.map_append]
  congr 1
  · congr 1
    induction bs with
    | nil => rfl
    | cons b rest ihb =>
      obtain ⟨n1, t1, p1⟩ := b
      cases p1 <;> simp only [List.map_cons, List.filterMap_cons] <;>
        simpa using ihb
  · rw [List.map_flatten]
    simp only [List.map_map]
    congr 1
    apply List.map_congr_left
    intro c hc
    simp only [Function.comp]
    rw [ih c hc]
    simp only [List.map_map, Function.comp]
    apply List.map_congr_left
    intro e _
    simp [Function.comp, String.append_assoc]

theorem Module.skeleton_def (ps : List (String × Tensor))
    (bs : List (String × Tensor × Bool)) (pl : List (String × Tensor))
    (cs : List (String × Module)) :
    Module.skeleton (.mk ps bs pl cs)
    = .mk (ps.map fun p => (p.1, p.2.canon))
        (bs.map fun b => (b.1, b.2.1.canon, b.2.2))
        []
        (cs.map fun c => (c.1, c.2.skeleton)) := by
  rw [Module.skeleton]
  rw [List.attach_map_val cs (fun c => (c.1, c.2.skeleton))]

/-- The export of the skeleton is the canonicalised export. -/
theorem skeleton_exportState :
    ∀ m : Module,
      m.skeleton.exportState = m.exportState.map fun e => (e.1, e.2.canon) := by
  apply Module.inductionOn
  intro ps bs pl cs ih
  rw [Module.skeleton_def, Module.exportState_def, Module.exportState_def]
  simp only [List.map_append]
  congr 1
  · congr 1
    induction bs with
    | nil => rfl
    | cons b rest ihb =>
      obtain ⟨n1, t1, p1⟩ := b
      cases p1 <;> simp only [List.map_cons, List.filterMap_cons] <;>
        simpa using ihb
  · rw [List.map_flatten]
    simp only [List.map_map]
    congr 1
    apply List.map_congr_left
    intro c hc
    simp only [Function.comp]
    rw [ih c hc]
    simp [Function.comp]

theorem Tensor.canon_shape (t : Tensor) : t.canon.shape = t.shape := by
  unfold Tensor.canon Tensor.shape
  simp

/-- With duplicate-free keys, looking up the i-th key returns the i-th
tensor. -/
theorem lookupKey_nodup (l : List (String × Tensor))
    (hnd : (l.map Prod.fst).Nodup) (i : Nat) (h : i < l.length) :
    lookupKey l (l[i]).1 = some (l[i]).2 := by
  induction l generalizing i with
  | nil => cases h
  | cons a rest ihl =>
    cases i with
    | zero =>
      simp only [List.getElem_cons_zero]
      unfold lookupKey
      rw [List.find?_cons_of_pos _ (by simp)]
      rfl
    | succ j =>
      have hj : j < rest.length := Nat.lt_of_succ_lt_succ h
      simp only [List.getElem_cons_succ]
      have hne : (rest[j]).1 ≠ a.1 := by
        intro hcontra
        have hmem : (rest[j]).1 ∈ rest.map Prod.fst :=
          List.mem_map_of_mem Prod.fst (List.getElem_mem hj)
        rw [List.map_cons] at hnd
        exact (List.nodup_cons.1 hnd).1 (hcontra ▸ hmem)
      unfold lookupKey
      rw [List.find?_cons_of_neg _ (by simpa using Ne.symm hne)]
      have hrec := ihl (by rw [List.map_cons] at hnd; exact (List.nodup_cons.1 hnd).2) j hj
      unfold lookupKey at hrec
      exact hrec

/-- C4: round-trip law — importing a module's exported state into a
freshly constructed module of identical structure succeeds strictly with
no diagnostics and reproduces every parameter and persistent buffer value
exactly. -/
theorem C4_roundtrip_reproduces_state (m mFresh : Module)
    (hs : m.skeleton = mFresh.skeleton)
    (hnd : m.exportableKeys.Nodup) :
    ∃ m2 : Module,
      mFresh.importState m.exportState true = .ok (m2, [], [])
      ∧ m2.exportState.map (fun e => (e.1, e.2.value))
          = m.exportState.map fun e => (e.1, e.2.value) := by
  have hnd' : (m.exportState.map Prod.fst).Nodup := hnd
  have hexp : m.exportState.map (fun e => (e.1, e.2.canon))
      = mFresh.exportState.map fun e => (e.1, e.2.canon) := by
    rw [← skeleton_exportState, ← skeleton_exportState, hs]
  have hkeys : m.exportState.map Prod.fst = mFresh.exportState.map Prod.fst := by
    have h := congrArg (List.map Prod.fst) hexp
    simpa [List.map_map, Function.comp] using h
  have hlen2 : m.exportState.length = mFresh.exportState.length := by
    have h := congrArg List.length hexp
    simpa using h
  have hkey_i : ∀ i (h1 : i < m.exportState.length)
      (h2 : i < mFresh.exportState.length),
      (m.exportState[i]).1 = (mFresh.exportState[i]).1
      ∧ (m.exportState[i]).2.shape = (mFresh.exportState[i]).2.shape := by
    intro i h1 h2
    have hx := congrArg (fun l => l[i]?) hexp
    simp only [List.getElem?_map, List.getElem?_eq_getElem h1,
      List.getElem?_eq_getElem h2, Option.map_some'] at hx
    have hx' := Option.some.inj hx
    obtain ⟨hk, hc⟩ := Prod.mk.inj hx'
    refine ⟨hk, ?_⟩
    have hsh := congrArg Tensor.shape hc
    rwa [Tensor.canon_shape, Tensor.canon_shape] at hsh
  have hmiss : (mFresh.exportState.map Prod.fst).filter
      (fun k => ¬ (m.exportState.map Prod.fst).contains k) = [] := by
    rw [List.filter_eq_nil_iff]
    intro k hk
    rw [← hkeys] at hk
    obtain ⟨e, he, rfl⟩ := List.mem_map.1 hk
    simp
    exact ⟨e.2, by simpa using he⟩
  have hunexp : (m.exportState.map Prod.fst).filter
      (fun k => ¬ (mFresh.exportState.map Prod.fst).contains k) = [] := by
    rw [List.filter_eq_nil_iff]
    intro k hk
    rw [hkeys] at hk
    obtain ⟨e, he, rfl⟩ := List.mem_map.1 hk
    simp
    exact ⟨e.2, by simpa using he⟩
  have hshape : firstShapeErr mFresh.exportState m.exportState = none := by
    unfold firstShapeErr
    rw [Option.map_eq_none']
    rw [List.find?_eq_none]
    intro e he
    obtain ⟨i, h2, rfl⟩ := List.mem_iff_getElem.1 he
    have h1 : i < m.exportState.length := by rw [hlen2]; exact h2
    have hkk := (hkey_i i h1 h2).1
    have hs2 := (hkey_i i h1 h2).2
    rw [← hkk, lookupKey_nodup m.exportState hnd' i h1]
    simp only [Tensor.sameShape, beq_iff_eq]
    simp [hs2.symm]
  refine ⟨mFresh.applyImport m.exportState "", ?_, ?_⟩
  · simp only [Module.importState, hmiss, hunexp, hshape]
    simp
  · rw [applyImport_exportState]
    apply List.ext_getElem?
    intro i
    by_cases hi : i < mFresh.exportState.length
    · have h1 : i < m.exportState.length := by rw [hlen2]; exact hi
      simp only [List.getElem?_map, List.getElem?_eq_getElem hi,
        List.getElem?_eq_getElem h1, Option.map_some']
      have hkk := (hkey_i i h1 hi).1
      have hs2 := (hkey_i i h1 hi).2
      unfold updateTensor
      rw [show ("" : String) ++ (mFresh.exportState[i]).1
          = (mFresh.exportState[i]).1 from rfl]
      rw [← hkk, lookupKey_nodup m.exportState hnd' i h1]
      simp only [Tensor.sameShape, beq_iff_eq, Tensor.loadFrom]
      rw [if_pos hs2.symm]
    · have h1 : ¬ i < m.exportState.length := by rw [hlen2]; exact hi
      rw [List.getElem?_eq_none, List.getElem?_eq_none]
      · simpa using le_of_not_lt h1
      · simpa using le_of_not_lt hi

/-- Witness for C4: the notebook scenario — mutate the mask of a module,
export, then load into a fresh module of identical structure; the strict
load is clean and reproduces all values. -/
theorem C4_witness :
    ∃ m2 : Module,
      (CausalAttentionWithBuffer.make 2 [[1, 2], [3, 4]] [[5, 6], [7, 8]] [[9, 1], [2, 3]]).importState
          (((CausalAttentionWithBuffer.make 2 [[1, 2], [3, 4]] [[5, 6], [7, 8]] [[9, 1], [2, 3]]).mutateBuffer
            "mask" (maskedAssign 1 2)).exportState) true
        = .ok (m2, [], [])
      ∧ m2.exportState.map (fun e => (e.1, e.2.value))
          = ((CausalAttentionWithBuffer.make 2 [[1, 2], [3, 4]] [[5, 6], [7, 8]] [[9, 1], [2, 3]]).mutateBuffer
            "mask" (maskedAssign 1 2)).exportState.map fun e => (e.1, e.2.value) := by
  have hmut : (CausalAttentionWithBuffer.make 2 [[1, 2], [3, 4]] [[5, 6], [7, 8]] [[9, 1], [2, 3]]).mutateBuffer
      "mask" (maskedAssign 1 2)
      = Module.mk []
          [("mask", ⟨[[0, 2], [0, 0]], .cpu, false⟩, true)] []
          [("W_query", linearModule [[1, 2], [3, 4]]), ("W_key", linearModule [[5, 6], [7, 8]]),
           ("W_value", linearModule [[9, 1], [2, 3]]), ("dropout", dropoutModule)] := rfl
  apply C4_roundtrip_reproduces_state
  · rw [hmut]
    have h3 : ([[0, 2], [0, 0]] : List (List ℚ)).map
        (fun r => List.replicate r.length (0 : ℚ)) = [[0, 0], [0, 0]] := by decide
    have h4 : (triuOnes 2).map
        (fun r => List.replicate r.length (0 : ℚ)) = [[0, 0], [0, 0]] := by decide
    simp only [CausalAttentionWithBuffer.make, linearModule, dropoutModule,
      Module.skeleton_def, Tensor.canon, List.map_cons, List.map_nil, h3, h4]
  · rw [hmut]
    unfold Module.exportableKeys
    simp only [linearModule, dropoutModule, Module.exportState_def,
      List.map_cons, List.map_nil, List.filterMap_cons, List.filterMap_nil,
      List.flatten_cons, List.flatten_nil, List.nil_append, List.append_nil,
      List.cons_append, List.map_append]
    decide

/-- Keys absent from the mapping are not found. -/
theorem lookupKey_eq_none (mp : List (String × Tensor)) (k : String)
    (h : k ∉ mp.map Prod.fst) : lookupKey mp k = none := by
  unfold lookupKey
  rw [Option.map_eq_none', List.find?_eq_none]
  intro e he
  simp only [beq_iff_eq]
  intro hcontra
  exact h (hcontra ▸ List.mem_map_of_mem Prod.fst he)

/-- C7: strict import fails with a KeyMismatch enumerating the missing and
unexpected keys exactly when the mapping's key set differs from the
exportable key set; non-strict import succeeds (absent shape errors),
reports both sets as diagnostics, ignores unexpected keys (the exported
key set is unchanged), and leaves entries with missing keys untouched. -/
theorem C7_import_key_mismatch (m : Module) (mp : List (String × Tensor)) :
    (¬ (m.exportableKeys.filter (fun k => ¬ (mp.map Prod.fst).contains k) = []
        ∧ (mp.map Prod.fst).filter (fun k => ¬ m.exportableKeys.contains k) = []) →
      m.importState mp true
        = .error (.keyMismatch
            (m.exportableKeys.filter fun k => ¬ (mp.map Prod.fst).contains k)
            ((mp.map Prod.fst).filter fun k => ¬ m.exportableKeys.contains k)))
    ∧ ((m.exportableKeys.filter (fun k => ¬ (mp.map Prod.fst).contains k) = []
        ∧ (mp.map Prod.fst).filter (fun k => ¬ m.exportableKeys.contains k) = []) →
        firstShapeErr m.exportState mp = none →
      m.importState mp true = .ok (m.applyImport mp "", [], []))
    ∧ (firstShapeErr m.exportState mp = none →
      m.importState mp false
        = .ok (m.applyImport mp "",
            m.exportableKeys.filter fun k => ¬ (mp.map Prod.fst).contains k,
            (mp.map Prod.fst).filter fun k => ¬ m.exportableKeys.contains k))
    ∧ ((m.applyImport mp "").exportableKeys = m.exportableKeys)
    ∧ (∀ k t, (k, t) ∈ m.exportState → k ∉ mp.map Prod.fst →
        (k, t) ∈ (m.applyImport mp "").exportState) := by
  refine ⟨?_, ?_, ?_, ?_, ?_⟩
  · intro hne
    unfold Module.exportableKeys at hne ⊢
    simp only [Module.importState]
    rw [if_pos (⟨trivial, by tauto⟩ : True ∧ _)]
  · intro hok hse
    unfold Module.exportableKeys at hok
    simp only [Module.importState, hok.1, hok.2, hse]
    simp
  · intro hse
    unfold Module.exportableKeys
    simp only [Module.importState, hse]
    simp
  · unfold Module.exportableKeys
    rw [applyImport_exportState]
    simp [List.map_map, Function.comp]
  · intro k t hm hk
    rw [applyImport_exportState]
    have hupd : updateTensor mp k t = t := by
      unfold updateTensor
      rw [lookupKey_eq_none mp k hk]
    have hmem := List.mem_map_of_mem
      (fun e => (e.1, updateTensor mp ("" ++ e.1) e.2)) hm
    simpa [hupd] using hmem

/-- Witness for C7: a mapping holding the three weight keys but missing
"mask" fails a strict load naming exactly "mask", while the non-strict
load succeeds, reports "mask" as missing, and leaves the mask entry
untouched. -/
theorem C7_witness :
    (CausalAttentionWithBuffer.make 2 [[1]] [[2]] [[3]]).importState
        [("W_query.weight", ⟨[[7]], .cpu, false⟩), ("W_key.weight", ⟨[[8]], .cpu, false⟩),
         ("W_value.weight", ⟨[[9]], .cpu, false⟩)] true
      = .error (.keyMismatch ["mask"] [])
    ∧ (CausalAttentionWithBuffer.make 2 [[1]] [[2]] [[3]]).importState
        [("W_query.weight", ⟨[[7]], .cpu, false⟩), ("W_key.weight", ⟨[[8]], .cpu, false⟩),
         ("W_value.weight", ⟨[[9]], .cpu, false⟩)] false
      = .ok ((CausalAttentionWithBuffer.make 2 [[1]] [[2]] [[3]]).applyImport
          [("W_query.weight", ⟨[[7]], .cpu, false⟩), ("W_key.weight", ⟨[[8]], .cpu, false⟩),
           ("W_value.weight", ⟨[[9]], .cpu, false⟩)] "", ["mask"], [])
    ∧ ("mask", (⟨triuOnes 2, .cpu, false⟩ : Tensor))
        ∈ ((CausalAttentionWithBuffer.make 2 [[1]] [[2]] [[3]]).applyImport
          [("W_query.weight", ⟨[[7]], .cpu, false⟩), ("W_key.weight", ⟨[[8]], .cpu, false⟩),
           ("W_value.weight", ⟨[[9]], .cpu, false⟩)] "").exportState := by
  have hexp : (CausalAttentionWithBuffer.make 2 [[1]] [[2]] [[3]]).exportState
      = [("mask", ⟨triuOnes 2, .cpu, false⟩), ("W_query.weight", ⟨[[1]], .cpu, true⟩),
         ("W_key.weight", ⟨[[2]], .cpu, true⟩), ("W_value.weight", ⟨[[3]], .cpu, true⟩)] := by
    simp only [CausalAttentionWithBuffer.make, linearModule, dropoutModule,
      Module.exportState_def, List.map_cons, List.map_nil, List.filterMap_cons,
      List.filterMap_nil, List.flatten_cons, List.flatten_nil, List.nil_append,
      List.append_nil, List.cons_append]
    simp
  have hmiss : (CausalAttentionWithBuffer.make 2 [[1]] [[2]] [[3]]).exportableKeys.filter
      (fun k => ¬ (([("W_query.weight", (⟨[[7]], .cpu, false⟩ : Tensor)), ("W_key.weight", ⟨[[8]], .cpu, false⟩),
        ("W_value.weight", ⟨[[9]], .cpu, false⟩)]).map Prod.fst).contains k) = ["mask"] := by
    unfold Module.exportableKeys
    rw [hexp]
    decide
  have hunexp : (([("W_query.weight", (⟨[[7]], .cpu, false⟩ : Tensor)), ("W_key.weight", ⟨[[8]], .cpu, false⟩),
      ("W_value.weight", ⟨[[9]], .cpu, false⟩)]).map Prod.fst).filter
      (fun k => ¬ (CausalAttentionWithBuffer.make 2 [[1]] [[2]] [[3]]).exportableKeys.contains k) = [] := by
    unfold Module.exportableKeys
    rw [hexp]
    decide
  have hshape : firstShapeErr (CausalAttentionWithBuffer.make 2 [[1]] [[2]] [[3]]).exportState
      [("W_query.weight", ⟨[[7]], .cpu, false⟩), ("W_key.weight", ⟨[[8]], .cpu, false⟩),
       ("W_value.weight", ⟨[[9]], .cpu, false⟩)] = none := by
    rw [hexp]
    decide
  refine ⟨?_, ?_, ?_⟩
  · have h := (C7_import_key_mismatch (CausalAttentionWithBuffer.make 2 [[1]] [[2]] [[3]])
      [("W_query.weight", ⟨[[7]], .cpu, false⟩), ("W_key.weight", ⟨[[8]], .cpu, false⟩),
       ("W_value.weight", ⟨[[9]], .cpu, false⟩)]).1 ?_
    · rw [hmiss, hunexp] at h
      exact h
    · rw [hmiss]
      rintro ⟨h1, h2⟩
      cases h1
  · have h := (C7_import_key_mismatch (CausalAttentionWithBuffer.make 2 [[1]] [[2]] [[3]])
      [("W_query.weight", ⟨[[7]], .cpu, false⟩), ("W_key.weight", ⟨[[8]], .cpu, false⟩),
       ("W_value.weight", ⟨[[9]], .cpu, false⟩)]).2.2.1 hshape
    rw [hmiss, hunexp] at h
    exact h
  · exact (C7_import_key_mismatch (CausalAttentionWithBuffer.make 2 [[1]] [[2]] [[3]])
      [("W_query.weight", ⟨[[7]], .cpu, false⟩), ("W_key.weight", ⟨[[8]], .cpu, false⟩),
       ("W_value.weight", ⟨[[9]], .cpu, false⟩)]).2.2.2.2 "mask" ⟨triuOnes 2, .cpu, false⟩
      (by rw [hexp]; decide) (by decide)

/-- The constructor's register_buffer call succeeds and yields exactly the
module with the mask registered as a persistent buffer. -/
theorem CausalAttentionWithBuffer.init_ok (ctxLen : Nat)
    (wq wk wv : List (List ℚ)) :
    CausalAttentionWithBuffer.init ctxLen wq wk wv
      = .ok (CausalAttentionWithBuffer.make ctxLen wq wk wv) := rfl

/-- Witness for C8: concrete reads of the mask for context_length 6. -/
theorem C8_witness :
    ((((CausalAttentionWithBuffer.make 6 [] [] []).bufferValue "mask").get? 0).getD []).get? 1
        = some 1
    ∧ ((((CausalAttentionWithBuffer.make 6 [] [] []).bufferValue "mask").get? 0).getD []).get? 0
        = some 0
    ∧ ((((CausalAttentionWithBuffer.make 6 [] [] []).bufferValue "mask").get? 5).getD []).get? 3
        = some 0 := by
  refine ⟨(C8_mask_upper_triangular [] [] []).2.1 1 (by decide) (by decide),
    (C8_mask_upper_triangular [] [] []).2.2.1,
    (C8_mask_upper_triangular [] [] []).2.2.2 3 (by decide)⟩

end PTB
